import Mathlib

/-!
Verification of the TuringBot core against its specification.

This file gives a shallow embedding, in Lean 4, of the parts of the
TuringBot code base (turing_tape.py, codebase_rw.py, sandbox.py,
brain.py, config.py) that the specification's testable properties talk
about, together with theorems settling those properties.

Conventions of the embedding:
* Python strings are Lean `String`s; Python's builtin string/number
  conversions (str(), int(), str.strip(), str.lower(), str.split()) are
  embedded as explicit char-list functions below, faithful to CPython's
  behaviour on the inputs the program feeds them.
* Python dicts that the program uses as ordered maps are embedded as
  association lists, with insertion preserving the position of an
  existing key (CPython dicts preserve insertion order and in-place
  update on re-assignment).
* Methods that mutate `self` are embedded as functions returning the
  new object state together with the returned value; a method that
  raises before mutating returns the unchanged state together with an
  `Except.error`.
-/

deriving instance DecidableEq for Except

/-! ## Embeddings of the Python builtins used by the program -/

/-- Python `str.strip()` whitespace predicate (ASCII whitespace). -/
def isPySpace (c : Char) : Bool :=
  c = ' ' || c = '\t' || c = '\n' || c = '\r' || c = '\x0b' || c = '\x0c'

/-- Python `str.strip()`. -/
def pyStrip (s : String) : String :=
  ⟨((s.data.dropWhile isPySpace).reverse.dropWhile isPySpace).reverse⟩

/-- Python `str.lower()` (the program only lowercases ASCII tokens). -/
def pyLower (s : String) : String := ⟨s.data.map Char.toLower⟩

/-- Base-10 digits, little-endian, by fuel recursion (so that the kernel
can evaluate it); proven equal to `Nat.digits 10` below. -/
def toDigitsAux : Nat → Nat → List Nat
  | _, 0 => []
  | 0, _ => []
  | fuel+1, n+1 => (n+1) % 10 :: toDigitsAux fuel ((n+1) / 10)

def toDigits (n : Nat) : List Nat := toDigitsAux n n

theorem toDigitsAux_eq (fuel : Nat) : ∀ n, n ≤ fuel → toDigitsAux fuel n = Nat.digits 10 n := by
  induction fuel with
  | zero =>
      intro n hn
      interval_cases n
      simp [toDigitsAux]
  | succ f ih =>
      intro n hn
      match n with
      | 0 => simp [toDigitsAux]
      | m+1 =>
          rw [toDigitsAux, Nat.digits_def' (by norm_num : 1 < 10) (Nat.succ_pos m), ih]
          exact Nat.lt_succ_iff.mp (Nat.lt_of_lt_of_le (Nat.div_lt_self (Nat.succ_pos m) (by norm_num)) hn)

theorem toDigits_eq (n : Nat) : toDigits n = Nat.digits 10 n := toDigitsAux_eq n n le_rfl

/-- The character of a decimal digit. -/
def digitChar (d : Nat) : Char := Char.ofNat (48 + d)

/-- Python `str(n)` for a non-negative integer. -/
def renderNat (n : Nat) : String :=
  if n = 0 then "0" else ⟨((toDigits n).map digitChar).reverse⟩

/-- Python `str(i)` for an arbitrary integer. -/
def renderInt (i : Int) : String :=
  if i < 0 then "-" ++ renderNat i.natAbs else renderNat i.toNat

/-- Numeric value of a decimal digit character. -/
def charVal (c : Char) : Nat := c.toNat - 48

/-- Python `int(s)` on a canonical unsigned decimal numeral (char-list level). -/
def parseNatChars (l : List Char) : Nat := Nat.ofDigits 10 ((l.map charVal).reverse)

/-- Python `int(s)` on a canonical decimal numeral, with optional sign.
(On the empty string CPython raises; the program never feeds it one,
and the embedding returns 0 there.) -/
def parseIntChars : List Char → Int
  | [] => 0
  | c :: rest => if c = '-' then -(parseNatChars rest : Int) else (parseNatChars (c :: rest) : Int)

def parseInt (s : String) : Int := parseIntChars s.data

theorem parseNat_renderNat (n : Nat) : parseNatChars (renderNat n).data = n := by
  by_cases h : n = 0
  · subst h; decide
  · have hd : (renderNat n).data = ((toDigits n).map digitChar).reverse := by
      simp [renderNat, h]
    rw [hd]
    unfold parseNatChars
    rw [List.map_reverse, List.reverse_reverse, List.map_map]
    have h2 : (toDigits n).map (charVal ∘ digitChar) = (toDigits n).map id := by
      apply List.map_congr_left
      intro d hd2
      have hlt : d < 10 := by
        rw [toDigits_eq] at hd2
        exact Nat.digits_lt_base (by norm_num) hd2
      interval_cases d <;> rfl
    rw [h2, List.map_id, toDigits_eq, Nat.ofDigits_digits]

theorem char_of_renderNat (n : Nat) :
    ∀ c ∈ (renderNat n).data, 48 ≤ c.toNat ∧ c.toNat ≤ 57 := by
  intro c hc
  by_cases h : n = 0
  · subst h; simp [renderNat] at hc; subst hc; decide
  · simp only [renderNat, if_neg h] at hc
    simp only [List.mem_reverse, List.mem_map] at hc
    obtain ⟨d, hd, rfl⟩ := hc
    have hlt : d < 10 := by
      rw [toDigits_eq] at hd
      exact Nat.digits_lt_base (by norm_num) hd
    interval_cases d <;> exact ⟨by decide, by decide⟩

theorem renderNat_ne_nil (n : Nat) : (renderNat n).data ≠ [] := by
  by_cases h : n = 0
  · subst h; decide
  · simp only [renderNat, if_neg h]
    simp only [ne_eq, List.reverse_eq_nil_iff, List.map_eq_nil_iff]
    rw [toDigits_eq]
    exact Nat.digits_ne_nil_iff_ne_zero.mpr h

theorem parseInt_renderInt (i : Int) : parseInt (renderInt i) = i := by
  unfold renderInt parseInt
  by_cases h : i < 0
  · rw [if_pos h]
    rw [String.data_append]
    show parseIntChars ('-' :: (renderNat i.natAbs).data) = i
    rw [parseIntChars, if_pos rfl, parseNat_renderNat]
    omega
  · rw [if_neg h]
    obtain ⟨c, cs, hc⟩ : ∃ c cs, (renderNat i.toNat).data = c :: cs := by
      rcases hn : (renderNat i.toNat).data with _ | ⟨c, cs⟩
      · exact absurd hn (renderNat_ne_nil _)
      · exact ⟨c, cs, rfl⟩
    have hcd : 48 ≤ c.toNat ∧ c.toNat ≤ 57 := char_of_renderNat _ c (by rw [hc]; exact List.mem_cons_self c cs)
    have hne : c ≠ '-' := by
      intro hEq
      rw [hEq] at hcd
      revert hcd; decide
    rw [hc, parseIntChars, if_neg hne, ← hc, parseNat_renderNat]
    omega

theorem char_of_renderInt (i : Int) :
    ∀ c ∈ (renderInt i).data, c = '-' ∨ (48 ≤ c.toNat ∧ c.toNat ≤ 57) := by
  intro c hc
  unfold renderInt at hc
  by_cases h : i < 0
  · rw [if_pos h, String.data_append] at hc
    rcases List.mem_append.mp hc with h1 | h2
    · left
      simpa using h1
    · exact Or.inr (char_of_renderNat _ c h2)
  · rw [if_neg h] at hc
    exact Or.inr (char_of_renderNat _ c hc)

theorem comma_not_in_renderInt (i : Int) : ',' ∉ (renderInt i).data := by
  intro hc
  rcases char_of_renderInt i ',' hc with h | h
  · exact absurd h (by decide)
  · revert h; decide

/-- Python `str.split(sep)` for a one-character separator, at char-list
level: `"".split(",") == [""]`, separators are not grouped. -/
def splitOnChar (sep : Char) : List Char → List (List Char)
  | [] => [[]]
  | c :: rest =>
      let r := splitOnChar sep rest
      if c = sep then [] :: r
      else
        match r with
        | [] => [[c]]
        | g :: gs => (c :: g) :: gs

theorem splitOnChar_ne_nil (sep : Char) (l : List Char) : splitOnChar sep l ≠ [] := by
  cases l with
  | nil => simp [splitOnChar]
  | cons c rest =>
      simp only [splitOnChar]
      by_cases h : c = sep
      · simp [h]
      · simp only [if_neg h]
        rcases splitOnChar sep rest with _ | ⟨g, gs⟩ <;> simp

theorem splitOnChar_no_sep (sep : Char) (l : List Char) (h : sep ∉ l) :
    splitOnChar sep l = [l] := by
  induction l with
  | nil => rfl
  | cons c rest ih =>
      have hcs : c ≠ sep := fun hEq => h (hEq ▸ List.mem_cons_self c rest)
      have hrs : sep ∉ rest := fun hm => h (List.mem_cons_of_mem c hm)
      simp only [splitOnChar, if_neg hcs, ih hrs]

theorem splitOnChar_append (sep : Char) (a rest : List Char) (h : sep ∉ a) :
    splitOnChar sep (a ++ sep :: rest) = a :: splitOnChar sep rest := by
  induction a with
  | nil => simp [splitOnChar]
  | cons c cs ih =>
      have hcs : c ≠ sep := fun hEq => h (hEq ▸ List.mem_cons_self c cs)
      have hcs2 : sep ∉ cs := fun hm => h (List.mem_cons_of_mem c hm)
      simp only [List.cons_append, splitOnChar, if_neg hcs]
      rw [show cs.append (sep :: rest) = cs ++ sep :: rest from rfl, ih hcs2]

/-! ## SpatialStore: `turing_tape.py`, class `TuringTape3D` -/

/-- A tape coordinate: the Python 3-tuple `(x, y, z)` of ints. -/
abbrev Coord : Type := Int × Int × Int

/-- Python repr of the head tuple, as interpolated in status strings:
`str((x, y, z))` gives `"(x, y, z)"`. -/
def renderTriple (c : Coord) : String :=
  "(" ++ renderInt c.1 ++ ", " ++ renderInt c.2.1 ++ ", " ++ renderInt c.2.2 ++ ")"

/-- The serialized cell key: the f-string `"{x},{y},{z}"`. -/
def renderKey (c : Coord) : String :=
  renderInt c.1 ++ "," ++ renderInt c.2.1 ++ "," ++ renderInt c.2.2

/-- `from_dict`'s key parser: `key.split(",")` then `int()` of the first
three pieces (CPython raises on a key with fewer than three pieces; on
keys produced by `to_dict` there are always exactly three). -/
def parseKey (s : String) : Coord :=
  let parts := splitOnChar ',' s.data
  (parseIntChars (parts.getD 0 []), parseIntChars (parts.getD 1 []), parseIntChars (parts.getD 2 []))

theorem renderKey_data (c : Coord) :
    (renderKey c).data =
      (renderInt c.1).data ++ ',' :: ((renderInt c.2.1).data ++ ',' :: (renderInt c.2.2).data) := by
  unfold renderKey
  rw [String.data_append, String.data_append, String.data_append, String.data_append]
  simp

theorem parseKey_renderKey (c : Coord) : parseKey (renderKey c) = c := by
  unfold parseKey
  rw [renderKey_data,
      splitOnChar_append ',' _ _ (comma_not_in_renderInt _),
      splitOnChar_append ',' _ _ (comma_not_in_renderInt _),
      splitOnChar_no_sep ',' _ (comma_not_in_renderInt _)]
  have h1 : parseIntChars (renderInt c.1).data = c.1 := parseInt_renderInt c.1
  have h2 : parseIntChars (renderInt c.2.1).data = c.2.1 := parseInt_renderInt c.2.1
  have h3 : parseIntChars (renderInt c.2.2).data = c.2.2 := parseInt_renderInt c.2.2
  simp [h1, h2, h3]

theorem renderKey_injective : Function.Injective renderKey := by
  intro a b h
  have := congrArg parseKey h
  rwa [parseKey_renderKey, parseKey_renderKey] at this

/-- The `DIRECTIONS` table of `turing_tape.py`. -/
def DIRECTIONS : List (String × Coord) :=
  [("+x", (1, 0, 0)), ("-x", (-1, 0, 0)),
   ("+y", (0, 1, 0)), ("-y", (0, -1, 0)),
   ("+z", (0, 0, 1)), ("-z", (0, 0, -1))]

/-- The alias dict inside `TuringTape3D.move`. -/
def moveAliases : List (String × String) :=
  [("up", "+y"), ("down", "-y"),
   ("right", "+x"), ("left", "-x"),
   ("forward", "+z"), ("backward", "-z"),
   ("back", "-z")]

/-- Python dict lookup `d.get(k)` on a literal-keyed dict. -/
def lookupAssoc {β : Type} : List (String × β) → String → Option β
  | [], _ => none
  | (k, v) :: rest, s => if k = s then some v else lookupAssoc rest s

theorem lookupAssoc_eq_none {β : Type} (l : List (String × β)) (s : String)
    (h : s ∉ l.map Prod.fst) : lookupAssoc l s = none := by
  induction l with
  | nil => rfl
  | cons p rest ih =>
      obtain ⟨k, v⟩ := p
      have hk : k ≠ s := by
        intro hEq
        exact h (by simp [hEq])
      simp only [lookupAssoc, if_neg hk]
      exact ih (fun hm => h (by simp at hm ⊢; exact Or.inr hm))

/-- The tape state: `self._cells` (a dict from coordinate to string,
embedded as an insertion-ordered association list) and `self._head`. -/
structure Tape where
  cells : List (Coord × String)
  head : Coord
deriving DecidableEq, Repr

attribute [ext] Tape

/-- Python dict membership lookup `d.get(k, default)` on `_cells`. -/
def lookupCell : List (Coord × String) → Coord → Option String
  | [], _ => none
  | (c, v) :: rest, k => if c = k then some v else lookupCell rest k

/-- Python dict assignment `d[k] = v`: updates in place if the key is
present (CPython keeps its position), else appends. -/
def upsertCell : List (Coord × String) → Coord → String → List (Coord × String)
  | [], k, v => [(k, v)]
  | (c, w) :: rest, k, v => if c = k then (k, v) :: rest else (c, w) :: upsertCell rest k v

/-- Python `d.pop(k, None)`: removes the entry for `k` if present. -/
def removeCell : List (Coord × String) → Coord → List (Coord × String)
  | [], _ => []
  | (c, w) :: rest, k => if c = k then rest else (c, w) :: removeCell rest k

theorem lookupCell_upsert (l : List (Coord × String)) (k : Coord) (v : String) :
    lookupCell (upsertCell l k v) k = some v := by
  induction l with
  | nil => simp [upsertCell, lookupCell]
  | cons p rest ih =>
      obtain ⟨c, w⟩ := p
      by_cases h : c = k
      · simp [upsertCell, lookupCell, h]
      · simp [upsertCell, lookupCell, h, ih]

theorem keys_upsert (l : List (Coord × String)) (k : Coord) (v : String) :
    (upsertCell l k v).map Prod.fst =
      if k ∈ l.map Prod.fst then l.map Prod.fst else l.map Prod.fst ++ [k] := by
  induction l with
  | nil => simp [upsertCell]
  | cons p rest ih =>
      obtain ⟨c, w⟩ := p
      by_cases h : c = k
      · simp [upsertCell, h]
      · have h2 : ¬(k = c) := fun hEq => h hEq.symm
        simp only [upsertCell, if_neg h, List.map_cons, List.mem_cons, h2, false_or, ih]
        by_cases hm : k ∈ rest.map Prod.fst <;> simp [hm]

theorem nodup_keys_upsert (l : List (Coord × String)) (k : Coord) (v : String)
    (h : (l.map Prod.fst).Nodup) : ((upsertCell l k v).map Prod.fst).Nodup := by
  rw [keys_upsert]
  by_cases hm : k ∈ l.map Prod.fst
  · rw [if_pos hm]; exact h
  · rw [if_neg hm]
    refine List.Nodup.append h (List.nodup_singleton k) ?_
    simpa [List.disjoint_singleton] using hm

theorem mem_upsert (l : List (Coord × String)) (k : Coord) (v : String) (p : Coord × String)
    (h : p ∈ upsertCell l k v) : p = (k, v) ∨ p ∈ l := by
  induction l with
  | nil => simpa [upsertCell] using h
  | cons q rest ih =>
      obtain ⟨c, w⟩ := q
      by_cases hck : c = k
      · simp only [upsertCell, if_pos hck] at h
        rcases List.mem_cons.mp h with h1 | h2
        · exact Or.inl h1
        · exact Or.inr (List.mem_cons_of_mem _ h2)
      · simp only [upsertCell, if_neg hck] at h
        rcases List.mem_cons.mp h with h1 | h2
        · exact Or.inr (h1 ▸ List.mem_cons_self _ _)
        · rcases ih h2 with h3 | h3
          · exact Or.inl h3
          · exact Or.inr (List.mem_cons_of_mem _ h3)

theorem mem_removeCell (l : List (Coord × String)) (k : Coord) (p : Coord × String)
    (h : p ∈ removeCell l k) : p ∈ l := by
  induction l with
  | nil => simp [removeCell] at h
  | cons q rest ih =>
      obtain ⟨c, w⟩ := q
      by_cases hck : c = k
      · simp only [removeCell, if_pos hck] at h
        exact List.mem_cons_of_mem _ h
      · simp only [removeCell, if_neg hck] at h
        rcases List.mem_cons.mp h with h1 | h2
        · exact h1 ▸ List.mem_cons_self _ _
        · exact List.mem_cons_of_mem _ (ih h2)

theorem keys_removeCell_sublist (l : List (Coord × String)) (k : Coord) :
    ((removeCell l k).map Prod.fst).Sublist (l.map Prod.fst) := by
  induction l with
  | nil => simp [removeCell]
  | cons q rest ih =>
      obtain ⟨c, w⟩ := q
      by_cases hck : c = k
      · simp only [removeCell, if_pos hck, List.map_cons]
        exact (List.sublist_cons_self _ _)
      · simp only [removeCell, if_neg hck, List.map_cons]
        exact ih.cons₂ c

theorem nodup_keys_removeCell (l : List (Coord × String)) (k : Coord)
    (h : (l.map Prod.fst).Nodup) : ((removeCell l k).map Prod.fst).Nodup :=
  (keys_removeCell_sublist l k).nodup h

theorem not_mem_keys_removeCell (l : List (Coord × String)) (k : Coord)
    (h : (l.map Prod.fst).Nodup) : k ∉ (removeCell l k).map Prod.fst := by
  induction l with
  | nil => simp [removeCell]
  | cons q rest ih =>
      obtain ⟨c, w⟩ := q
      simp only [List.map_cons, List.nodup_cons] at h
      by_cases hck : c = k
      · simp only [removeCell, if_pos hck]
        intro hm
        exact h.1 (hck ▸ hm)
      · simp only [removeCell, if_neg hck, List.map_cons, List.mem_cons]
        rintro (h1 | h2)
        · exact hck h1.symm
        · exact ih h.2 h2

theorem lookupCell_eq_none (l : List (Coord × String)) (k : Coord)
    (h : k ∉ l.map Prod.fst) : lookupCell l k = none := by
  induction l with
  | nil => rfl
  | cons q rest ih =>
      obtain ⟨c, w⟩ := q
      have hck : c ≠ k := fun hEq => h (by simp [hEq])
      simp only [lookupCell, if_neg hck]
      exact ih (fun hm => h (by rw [List.map_cons]; exact List.mem_cons_of_mem _ hm))

/-- The faults `TuringTape3D` raises: `move` raises `ValueError`
("Invalid direction ...") and `scan_neighborhood` raises `ValueError`
("Radius must be non-negative"). -/
inductive TapeErr
  | invalidDirection (d : String)
  | invalidRadius
deriving DecidableEq, Repr

/-- `TuringTape3D.__init__`: empty cells, head at the origin. -/
def tapeInit : Tape := { cells := [], head := (0, 0, 0) }

/-- `TuringTape3D.read`. -/
def readCell (t : Tape) : Tape × String := (t, (lookupCell t.cells t.head).getD "")

/-- `TuringTape3D.write` (its `TypeError` guard lives at the dispatch
layer, where untyped arguments arrive; here the value is a string). -/
def write (value : String) (t : Tape) : Tape × String :=
  if value = "" then
    ({ t with cells := removeCell t.cells t.head },
     "Wrote \x27" ++ value ++ "\x27 at " ++ renderTriple t.head)
  else
    ({ t with cells := upsertCell t.cells t.head value },
     "Wrote \x27" ++ value ++ "\x27 at " ++ renderTriple t.head)

/-- The normalization at the top of `TuringTape3D.move`:
`direction.strip().lower()`, then the alias dict. -/
def normalizeDir (s : String) : String :=
  (lookupAssoc moveAliases (pyLower (pyStrip s))).getD (pyLower (pyStrip s))

/-- `TuringTape3D.move`. On an invalid direction the `ValueError` is
raised before `_head` is assigned, so the state is returned unchanged. -/
def move (direction : String) (t : Tape) : Tape × Except TapeErr String :=
  match lookupAssoc DIRECTIONS (normalizeDir direction) with
  | none => (t, Except.error (TapeErr.invalidDirection (normalizeDir direction)))
  | some v =>
      ({ t with head := (t.head.1 + v.1, t.head.2.1 + v.2.1, t.head.2.2 + v.2.2) },
       Except.ok ("Moved " ++ normalizeDir direction ++ " → head now at " ++
         renderTriple (t.head.1 + v.1, t.head.2.1 + v.2.1, t.head.2.2 + v.2.2)))

/-- `TuringTape3D.jump` (arguments already integers; `int()` is the identity). -/
def jump (x y z : Int) (t : Tape) : Tape × String :=
  ({ t with head := (x, y, z) }, "Jumped to " ++ renderTriple (x, y, z))

/-- `TuringTape3D.scan_neighborhood`. -/
def scan_neighborhood (radius : Int) (t : Tape) : Tape × Except TapeErr (List (String × String)) :=
  if radius < 0 then (t, Except.error TapeErr.invalidRadius)
  else
    (t, Except.ok (t.cells.filterMap (fun p =>
      if |p.1.1 - t.head.1| ≤ radius ∧ |p.1.2.1 - t.head.2.1| ≤ radius ∧
         |p.1.2.2 - t.head.2.2| ≤ radius
      then some (renderKey p.1, p.2) else none)))

/-- `TuringTape3D.status`. -/
def status (t : Tape) : Tape × String :=
  (t, "Head: " ++ renderTriple t.head ++ " | Current cell: \x27" ++ (readCell t).2 ++
      "\x27 | Total written cells: " ++ renderNat t.cells.length)

/-- The JSON-compatible dict produced by `to_dict`. -/
structure TapeDict where
  head : List Int
  cells : List (String × String)
deriving DecidableEq, Repr

/-- `TuringTape3D.to_dict`. -/
def to_dict (t : Tape) : TapeDict :=
  { head := [t.head.1, t.head.2.1, t.head.2.2],
    cells := t.cells.map (fun p => (renderKey p.1, p.2)) }

/-- `TuringTape3D.from_dict`. The Python code indexes `head[0..2]` and
`key.split(",")[0..2]`; on the three-element lists `to_dict` produces,
`getD` below coincides with that indexing. -/
def from_dict (d : TapeDict) : Tape :=
  { head := (d.head.getD 0 0, d.head.getD 1 0, d.head.getD 2 0),
    cells := d.cells.foldl (fun acc p => upsertCell acc (parseKey p.1) p.2) [] }

/-- Tape states reachable by the program: freshly constructed, produced
by a mutator, or restored from the persisted form of a reachable state. -/
inductive Reachable : Tape → Prop
  | init : Reachable tapeInit
  | write (v : String) (t : Tape) : Reachable t → Reachable (write v t).1
  | move (d : String) (t : Tape) : Reachable t → Reachable (move d t).1
  | jump (x y z : Int) (t : Tape) : Reachable t → Reachable (jump x y z t).1
  | restore (t : Tape) : Reachable t → Reachable (from_dict (to_dict t))

/-- The internal tape invariant: no cell holds the empty string, and
the cell dict has no duplicate keys. -/
def TapeInv (t : Tape) : Prop :=
  (∀ p ∈ t.cells, p.2 ≠ "") ∧ (t.cells.map Prod.fst).Nodup

theorem upsert_not_mem (acc : List (Coord × String)) (k : Coord) (v : String)
    (h : k ∉ acc.map Prod.fst) : upsertCell acc k v = acc ++ [(k, v)] := by
  induction acc with
  | nil => rfl
  | cons q rest ih =>
      obtain ⟨c, w⟩ := q
      have hck : c ≠ k := fun hEq => h (by simp [hEq])
      simp only [upsertCell, if_neg hck, List.cons_append, List.cons.injEq, true_and]
      exact ih (fun hm => h (by rw [List.map_cons]; exact List.mem_cons_of_mem _ hm))

theorem foldl_upsert (l : List (Coord × String)) :
    ∀ acc, (∀ p ∈ l, p.1 ∉ acc.map Prod.fst) → (l.map Prod.fst).Nodup →
      l.foldl (fun a p => upsertCell a p.1 p.2) acc = acc ++ l := by
  induction l with
  | nil => intro acc _ _; simp
  | cons p rest ih =>
      intro acc hd hn
      obtain ⟨k, v⟩ := p
      simp only [List.foldl_cons]
      rw [upsert_not_mem acc k v (hd (k, v) (List.mem_cons_self _ _))]
      simp only [List.map_cons, List.nodup_cons] at hn
      rw [ih (acc ++ [(k, v)]) ?_ hn.2]
      · simp
      · intro q hq
        rw [List.map_append]
        intro hmem
        rcases List.mem_append.mp hmem with h1 | h2
        · exact hd q (List.mem_cons_of_mem _ hq) h1
        · simp only [List.map_cons, List.map_nil, List.mem_singleton] at h2
          exact hn.1 (h2 ▸ List.mem_map_of_mem Prod.fst hq)

/-- Serialize-then-deserialize is the identity on tapes whose cell dict
has no duplicate keys. -/
theorem from_dict_to_dict (t : Tape) (h : (t.cells.map Prod.fst).Nodup) :
    from_dict (to_dict t) = t := by
  unfold from_dict to_dict
  apply Tape.ext
  · simp only [List.foldl_map]
    have hfun : (fun (a : List (Coord × String)) (p : Coord × String) =>
        upsertCell a (parseKey (renderKey p.1)) p.2) =
        fun a p => upsertCell a p.1 p.2 := by
      funext a p
      rw [parseKey_renderKey]
    rw [hfun, foldl_upsert t.cells [] (by simp) h]
    simp
  · simp

theorem move_state (d : String) (t : Tape) :
    (move d t).1.cells = t.cells ∧
      ((move d t).1.head = t.head ∨
        ∃ v, lookupAssoc DIRECTIONS (normalizeDir d) = some v ∧
          (move d t).1.head = (t.head.1 + v.1, t.head.2.1 + v.2.1, t.head.2.2 + v.2.2)) := by
  unfold move
  rcases hm : lookupAssoc DIRECTIONS (normalizeDir d) with _ | v
  · exact ⟨rfl, Or.inl rfl⟩
  · exact ⟨rfl, Or.inr ⟨v, rfl, rfl⟩⟩

/-- Every reachable tape satisfies the internal invariant. -/
theorem reachable_inv (t : Tape) (ht : Reachable t) : TapeInv t := by
  induction ht with
  | init => exact ⟨by simp [tapeInit], by simp [tapeInit]⟩
  | write v t _ ih =>
      obtain ⟨hv, hn⟩ := ih
      by_cases hev : v = ""
      · subst hev
        constructor
        · intro p hp
          exact hv p (mem_removeCell _ _ _ (by simpa [write] using hp))
        · simpa [write] using nodup_keys_removeCell _ _ hn
      · constructor
        · intro p hp
          simp only [write, if_neg hev] at hp
          rcases mem_upsert _ _ _ _ hp with h1 | h2
          · rw [h1]; exact hev
          · exact hv p h2
        · simpa [write, if_neg hev] using nodup_keys_upsert _ _ _ hn
  | move d t _ ih =>
      obtain ⟨hv, hn⟩ := ih
      have hc := (move_state d t).1
      exact ⟨by rw [hc]; exact hv, by rw [hc]; exact hn⟩
  | jump x y z t _ ih => exact ih
  | restore t _ ih =>
      rw [from_dict_to_dict t ih.2]
      exact ih

/-! ## CapabilityStore: `codebase_rw.py`, with constants from `config.py` -/

/-- Python string comparison (code-point lexicographic), char-list level. -/
def strLtChars : List Char → List Char → Bool
  | [], [] => false
  | [], _ :: _ => true
  | _ :: _, [] => false
  | a :: as, b :: bs =>
      if a.toNat < b.toNat then true
      else if b.toNat < a.toNat then false
      else strLtChars as bs

def pyStrLt (a b : String) : Bool := strLtChars a.data b.data

def insertSorted (x : String) : List String → List String
  | [] => [x]
  | y :: ys => if pyStrLt x y then x :: y :: ys else y :: insertSorted x ys

/-- Python `sorted()` on strings (stable insertion sort). -/
def pySorted (l : List String) : List String := l.foldl (fun acc x => insertSorted x acc) []

/-- Python repr of a list of strings, as interpolated into f-strings. -/
def renderStrList (l : List String) : String :=
  "[" ++ String.intercalate ", " (l.map (fun s => "\x27" ++ s ++ "\x27")) ++ "]"

/-- Python `str.startswith(pre)`. -/
def pyStartsWith (s pre : String) : Bool := pre.data.isPrefixOf s.data

/-- Python `str.endswith(suf)`. -/
def pyEndsWith (s suf : String) : Bool := suf.data.isSuffixOf s.data

/-- `config.CORE_FILES` (a frozenset; embedded in source order). -/
def CORE_FILES : List String :=
  ["main.py", "config.py", "bot.py", "brain.py", "heartbeat.py",
   "turing_tape.py", "codebase_rw.py", "prompt_builder.py", "sandbox.py",
   "requirements.txt"]

/-- `pathlib.Path(rel).parts` for a relative POSIX path: split on `/`,
dropping empty and `.` components (pathlib keeps `..` components). -/
def pathParts (s : String) : List String :=
  ((splitOnChar '/' s.data).map (fun l => (⟨l⟩ : String))).filter
    (fun p => ¬(p = "" ∨ p = "."))

/-- `pathlib.Path(rel).name`: the final component. -/
def pathName (s : String) : String := (pathParts s).getLastD ""

/-- `Path.resolve()` on `base / rel`: append components, collapsing
`..` lexically (the embedding assumes a symlink-free tree, which is how
the program's own tree is laid out). The base is the already-resolved
absolute project root, given as its components. -/
def resolveComponents : List String → List String → List String
  | base, [] => base
  | base, p :: rest =>
      if p = ".." then resolveComponents base.dropLast rest
      else resolveComponents (base ++ [p]) rest

/-- `str()` of an absolute path given by components. -/
def renderAbsPath (parts : List String) : String :=
  parts.foldl (fun acc p => acc ++ "/" ++ p) ""

/-- The Python exceptions the program raises and catches. -/
inductive PyExc
  | coreProtectionError (msg : String)
  | permissionError (msg : String)
  | fileNotFoundError (msg : String)
  | isADirectoryError (msg : String)
  | typeError (msg : String)
  | valueError (msg : String)
  | importError (msg : String)
  | keyError (msg : String)
  | attributeError (msg : String)
deriving DecidableEq, Repr

/-- `CodebaseRW._is_core_protected`. -/
def is_core_protected (core_files : List String) (rel_path : String) : Bool :=
  let normalized := pathName rel_path
  if core_files.contains normalized then true
  else if ¬((pathParts rel_path).head? = some "extensions") then true
  else false

/-- The file tree the store mediates: resolved absolute path components
mapped to file contents (directories are the proper prefixes of file
paths). -/
structure CodebaseFS where
  files : List (List String × String)
deriving DecidableEq, Repr

def alistLookup {α β : Type} [DecidableEq α] : List (α × β) → α → Option β
  | [], _ => none
  | (k, v) :: rest, s => if k = s then some v else alistLookup rest s

def alistUpsert {α β : Type} [DecidableEq α] : List (α × β) → α → β → List (α × β)
  | [], k, v => [(k, v)]
  | (c, w) :: rest, k, v => if c = k then (k, v) :: rest else (c, w) :: alistUpsert rest k v

def alistRemove {α β : Type} [DecidableEq α] : List (α × β) → α → List (α × β)
  | [], _ => []
  | (c, w) :: rest, k => if c = k then rest else (c, w) :: alistRemove rest k

/-- `CodebaseRW.read_file`. -/
def read_file (root : List String) (fs : CodebaseFS) (rel_path : String) : Except PyExc String :=
  let target := resolveComponents root (pathParts rel_path)
  if ¬ pyStartsWith (renderAbsPath target) (renderAbsPath root) then
    Except.error (PyExc.permissionError
      ("Path \x27" ++ rel_path ++ "\x27 resolves outside the project root"))
  else
    match alistLookup fs.files target with
    | some content => Except.ok content
    | none =>
        if fs.files.any (fun e => ¬(target = e.1) ∧ target.isPrefixOf e.1) then
          Except.error (PyExc.isADirectoryError
            ("Path is a directory, not a file: " ++ rel_path))
        else
          Except.error (PyExc.fileNotFoundError ("File not found: " ++ rel_path))

/-- `CodebaseRW.write_file`. -/
def write_file (root : List String) (core_files : List String) (fs : CodebaseFS)
    (rel_path content : String) : Except PyExc (String × CodebaseFS) :=
  if is_core_protected core_files rel_path then
    Except.error (PyExc.coreProtectionError
      ("Cannot write to \x27" ++ rel_path ++ "\x27: this is a core-protected file. " ++
       "You can only write to the \x27extensions/\x27 directory. " ++
       "Protected files: " ++ renderStrList (pySorted core_files)))
  else
    let target := resolveComponents root (pathParts rel_path)
    if ¬ pyStartsWith (renderAbsPath target) (renderAbsPath root) then
      Except.error (PyExc.permissionError
        ("Path \x27" ++ rel_path ++ "\x27 resolves outside the project root"))
    else
      Except.ok ("Successfully wrote " ++ renderNat content.length ++ " bytes to " ++ rel_path,
                 { files := alistUpsert fs.files target content })

/-- `CodebaseRW.delete_file`. -/
def delete_file (root : List String) (core_files : List String) (fs : CodebaseFS)
    (rel_path : String) : Except PyExc (String × CodebaseFS) :=
  if is_core_protected core_files rel_path then
    Except.error (PyExc.coreProtectionError
      ("Cannot delete \x27" ++ rel_path ++ "\x27: core-protected file."))
  else
    let target := resolveComponents root (pathParts rel_path)
    if ¬ pyStartsWith (renderAbsPath target) (renderAbsPath root) then
      Except.error (PyExc.permissionError
        ("Path \x27" ++ rel_path ++ "\x27 resolves outside the project root"))
    else
      match alistLookup fs.files target with
      | none => Except.error (PyExc.fileNotFoundError ("File not found: " ++ rel_path))
      | some _ => Except.ok ("Deleted " ++ rel_path, { files := alistRemove fs.files target })

def insertSortedBy {α : Type} (key : α → String) (x : α) : List α → List α
  | [] => [x]
  | y :: ys => if pyStrLt (key x) (key y) then x :: y :: ys else y :: insertSortedBy key x ys

/-- Python `sorted()` with a key (stable). -/
def pySortedBy {α : Type} (key : α → String) (l : List α) : List α :=
  l.foldl (fun acc x => insertSortedBy key x acc) []

/-- Relative path of an absolute component path under the root
(`path.relative_to(self.project_root)`). -/
def relOf (root p : List String) : List String := p.drop root.length

/-- `CodebaseRW.list_files`: every file under the root, hidden files and
`__pycache__` skipped, sorted by path, classified core/extension/other.
(`sorted(rglob(...))` compares paths component-wise; rendered here via
the path string, which agrees on the program's file names.) -/
def list_files (root core_files : List String) (fs : CodebaseFS) :
    List (String × String × String) :=
  let entries := (fs.files.map (fun e => (relOf root e.1, e.2))).filter
    (fun e => ¬(e.1.any (fun part => pyStartsWith part ".")) ∧ ¬(e.1.contains "__pycache__"))
  (pySortedBy (fun e => String.intercalate "/" e.1) entries).map (fun e =>
    let relStr := String.intercalate "/" e.1
    (relStr,
     if core_files.contains (e.1.getLastD "") then "core"
     else if pyStartsWith relStr "extensions" then "extension"
     else "other",
     renderNat e.2.length))

/-- `str.replace("/", ".")`. -/
def replaceSlashWithDot (s : String) : String :=
  ⟨s.data.map (fun c => if c = '/' then '.' else c)⟩

/-- `str.removesuffix(suf)`. -/
def removeSuffixPy (s suf : String) : String :=
  if pyEndsWith s suf then ⟨s.data.take (s.data.length - suf.data.length)⟩ else s

/-- The module identifier `hot_load` derives:
`rel_path.replace("/", ".").removesuffix(".py")`. -/
def moduleNameOf (rel_path : String) : String :=
  removeSuffixPy (replaceSlashWithDot rel_path) ".py"

/-- `CodebaseRW.hot_load`. The execution of the module source by
`sandboxed_exec` is abstracted as the `sandboxRun` argument, returning
either the executed namespace's top-level names or the exception the
execution raised (the sandbox itself is embedded separately below). -/
def hot_load (root : List String) (fs : CodebaseFS)
    (sandboxRun : String → Except PyExc (List String)) (rel_path : String) :
    Except PyExc String :=
  if ¬ pyStartsWith rel_path "extensions/" then
    Except.error (PyExc.coreProtectionError
      ("Can only hot-load modules from extensions/, got \x27" ++ rel_path ++ "\x27"))
  else if ¬ pyEndsWith rel_path ".py" then
    Except.error (PyExc.valueError
      ("Can only hot-load .py files, got \x27" ++ rel_path ++ "\x27"))
  else
    match alistLookup fs.files (resolveComponents root (pathParts rel_path)) with
    | none => Except.error (PyExc.fileNotFoundError ("Module not found: " ++ rel_path))
    | some source =>
        match sandboxRun source with
        | Except.error e => Except.error e
        | Except.ok ns =>
            let exports := ns.filter (fun k => ¬ pyStartsWith k "__")
            Except.ok ("Loaded module \x27" ++ moduleNameOf rel_path ++
              "\x27 in sandbox. Defined: " ++
              (if exports = [] then "(nothing)" else renderStrList exports))

/-! ## Sandbox: `sandbox.py` -/

/-- `sandbox.ALLOWED_MODULES` (a frozenset; embedded in source order). -/
def ALLOWED_MODULES : List String :=
  ["math", "random", "string", "re", "json", "datetime", "time",
   "collections", "itertools", "functools", "operator", "decimal",
   "fractions", "statistics", "hashlib", "hmac", "base64", "copy",
   "enum", "dataclasses", "typing", "abc", "textwrap", "unicodedata",
   "bisect", "heapq", "array", "struct", "pprint"]

/-- `sandbox.BLOCKED_MODULES`. -/
def BLOCKED_MODULES : List String :=
  ["os", "sys", "subprocess", "shutil", "signal", "ctypes",
   "multiprocessing", "threading", "pathlib", "glob", "tempfile", "io",
   "socket", "http", "urllib", "requests", "aiohttp", "httpx", "ftplib",
   "smtplib", "xmlrpc", "code", "codeop", "compile", "compileall",
   "importlib", "runpy", "ast", "inspect", "gc", "weakref", "traceback",
   "pickle", "shelve", "marshal"]

/-- `sandbox._is_module_allowed`. -/
def is_module_allowed (name : String) : Bool :=
  if ALLOWED_MODULES.contains name then true
  else if ALLOWED_MODULES.any (fun allowed => pyStartsWith name (allowed ++ ".")) then true
  else if BLOCKED_MODULES.contains
      (((splitOnChar '.' name.data).map (fun l => (⟨l⟩ : String))).headD name) then false
  else false

/-- The `ImportError` message `safe_import` raises. -/
def blockedImportMsg (name : String) : String :=
  "🔒 SANDBOX: Import of \x27" ++ name ++ "\x27 is blocked. " ++
  "Allowed modules: " ++ renderStrList (pySorted ALLOWED_MODULES)

/-- Values in a sandboxed module's namespace (the fragment the
embedding needs: imported module handles and plain data). -/
inductive SandboxVal
  | str (s : String)
  | int (i : Int)
  | moduleRef (name : String)
deriving DecidableEq, Repr

/-- One top-level statement of a sandboxed module, as the sandbox sees
it: an import (routed through `safe_import`), a statement that raises a
runtime fault of the given exception type and message, or a top-level
binding. -/
inductive SandboxStmt
  | importM (name : String)
  | raiseF (excType excMsg : String)
  | assign (x : String) (v : SandboxVal)
deriving DecidableEq, Repr

/-- The outcome of `sandboxed_exec`: the resulting namespace, an
`ImportError` from the `safe_import` hook, or the unchanged runtime
fault the code raised. -/
inductive SandboxOutcome
  | ok (ns : List (String × SandboxVal))
  | blockedImport (msg : String)
  | fault (excType excMsg : String)
deriving DecidableEq, Repr

/-- `sandbox.sandboxed_exec` on a straight-line module: every `import`
goes through the `safe_import` hook built by `_make_safe_import`; any
other fault propagates unchanged; bindings accumulate the namespace. -/
def sandboxed_exec : List SandboxStmt → List (String × SandboxVal) → SandboxOutcome
  | [], ns => SandboxOutcome.ok ns
  | SandboxStmt.importM name :: rest, ns =>
      if is_module_allowed name then
        sandboxed_exec rest (alistUpsert ns name (SandboxVal.moduleRef name))
      else SandboxOutcome.blockedImport (blockedImportMsg name)
  | SandboxStmt.raiseF ty msg :: _, _ => SandboxOutcome.fault ty msg
  | SandboxStmt.assign x v :: rest, ns => sandboxed_exec rest (alistUpsert ns x v)

/-! ## Dispatcher: `brain.py`, class `Brain` -/

/-- A JSON-representable tool argument (the program's tools receive
strings and integers). -/
inductive Arg
  | str (s : String)
  | int (i : Int)
deriving DecidableEq, Repr

/-- A structured tool request from the reasoning backend. -/
structure ToolCall where
  name : String
  args : List (String × Arg)
deriving DecidableEq, Repr

inductive Role
  | system | user | assistant | tool
deriving DecidableEq, Repr

/-- A history message (the dicts Brain keeps in `self.history`). A
`None` content is embedded as `""` (the return path applies
`msg.content or ""` anyway). -/
structure Msg where
  role : Role
  content : String
  toolCalls : List ToolCall
deriving DecidableEq, Repr

/-- The assistant message a reasoning backend returns for one chat call. -/
structure AsstMsg where
  content : String
  toolCalls : List ToolCall
deriving DecidableEq, Repr

/-- The mutable state the tools reach: the tape and the mediated file
tree. -/
structure BrainState where
  tape : Tape
  fs : CodebaseFS
deriving DecidableEq, Repr

/-- The static pieces `Brain.__init__` receives: the project root, the
protected-name set, and the sandbox execution of module sources (see
`hot_load`). -/
structure BrainEnv where
  root : List String
  core_files : List String
  sandboxRun : String → Except PyExc (List String)

/-- Python `args[k]`: raises `KeyError` when absent. -/
def getArg (args : List (String × Arg)) (k : String) : Except PyExc Arg :=
  match alistLookup args k with
  | some v => Except.ok v
  | none => Except.error (PyExc.keyError ("\x27" ++ k ++ "\x27"))

/-- Python `int(arg)` as `tape_jump` applies it: identity on ints,
decimal parse on canonical numeral strings, `ValueError` otherwise. -/
def pyIntOf : Arg → Except PyExc Int
  | Arg.int i => Except.ok i
  | Arg.str s =>
      let ok : Bool :=
        match s.data with
        | '-' :: rest => ¬(rest = []) && rest.all (fun c => 48 ≤ c.toNat && c.toNat ≤ 57)
        | l => ¬(l = []) && l.all (fun c => 48 ≤ c.toNat && c.toNat ≤ 57)
      if ok then Except.ok (parseInt s)
      else Except.error (PyExc.valueError
        ("invalid literal for int() with base 10: \x27" ++ s ++ "\x27"))

/-- The `ValueError` message of `TuringTape3D.move`. -/
def invalidDirectionMsg (d : String) : String :=
  "Invalid direction \x27" ++ d ++ "\x27. Valid: " ++
  renderStrList (pySorted (DIRECTIONS.map Prod.fst)) ++
  " or up/down/left/right/forward/backward"

/-- `json.dumps(cells, indent=2)` for the flat string-to-string dict
`tape_scan` returns (escaping inside values is not modelled; no claim
inspects this text). -/
def jsonOfPairs (l : List (String × String)) : String :=
  "\x7b" ++
  String.intercalate "," (l.map (fun p => "\n  \"" ++ p.1 ++ "\": \"" ++ p.2 ++ "\"")) ++
  "\n\x7d"

/-- `json.dumps(files, indent=2)` for `code_list` (same caveat). -/
def jsonOfFileList (l : List (String × String × String)) : String :=
  "[" ++
  String.intercalate "," (l.map (fun e =>
    "\n  \x7b\n    \"path\": \"" ++ e.1 ++ "\",\n    \"type\": \"" ++ e.2.1 ++
    "\",\n    \"size\": \"" ++ e.2.2 ++ "\"\n  \x7d")) ++
  "\n]"

/-- The names in `Brain._dispatch_tool`'s `if`/`elif` chain. -/
def dispatchToolNames : List String :=
  ["tape_read", "tape_write", "tape_move", "tape_jump", "tape_scan",
   "tape_status", "code_read", "code_write", "code_delete", "code_list",
   "code_exec"]

/-- The body of the `try` block of `Brain._dispatch_tool`: the
`if`/`elif` chain, with every exception a dispatched operation can
raise surfaced as an `Except.error` (all mutations in the dispatched
operations happen after their guards, so a raising branch leaves the
state untouched). -/
def dispatchInner (env : BrainEnv) (st : BrainState) (name : String)
    (args : List (String × Arg)) : Except PyExc (String × BrainState) :=
  if name = "tape_read" then
    let value := (readCell st.tape).2
    Except.ok ((if ¬(value = "") then "Cell value: \x27" ++ value ++ "\x27" else "Cell is empty"), st)
  else if name = "tape_write" then
    match getArg args "value" with
    | Except.error e => Except.error e
    | Except.ok (Arg.int _) =>
        Except.error (PyExc.typeError "Tape values must be strings, got int")
    | Except.ok (Arg.str v) =>
        let r := write v st.tape
        Except.ok (r.2, { st with tape := r.1 })
  else if name = "tape_move" then
    match getArg args "direction" with
    | Except.error e => Except.error e
    | Except.ok (Arg.int _) =>
        Except.error (PyExc.attributeError "\x27int\x27 object has no attribute \x27strip\x27")
    | Except.ok (Arg.str d) =>
        match move d st.tape with
        | (t2, Except.ok m) => Except.ok (m, { st with tape := t2 })
        | (_, Except.error (TapeErr.invalidDirection dn)) =>
            Except.error (PyExc.valueError (invalidDirectionMsg dn))
        | (_, Except.error TapeErr.invalidRadius) =>
            Except.error (PyExc.valueError "Radius must be non-negative")
  else if name = "tape_jump" then
    match getArg args "x", getArg args "y", getArg args "z" with
    | Except.error e, _, _ => Except.error e
    | _, Except.error e, _ => Except.error e
    | _, _, Except.error e => Except.error e
    | Except.ok ax, Except.ok ay, Except.ok az =>
        match pyIntOf ax, pyIntOf ay, pyIntOf az with
        | Except.error e, _, _ => Except.error e
        | _, Except.error e, _ => Except.error e
        | _, _, Except.error e => Except.error e
        | Except.ok x, Except.ok y, Except.ok z =>
            let r := jump x y z st.tape
            Except.ok (r.2, { st with tape := r.1 })
  else if name = "tape_scan" then
    match (alistLookup args "radius").getD (Arg.int 1) with
    | Arg.str _ =>
        Except.error (PyExc.typeError
          "\x27<\x27 not supported between instances of \x27str\x27 and \x27int\x27")
    | Arg.int r =>
        match scan_neighborhood r st.tape with
        | (_, Except.error _) =>
            Except.error (PyExc.valueError "Radius must be non-negative")
        | (_, Except.ok cells) =>
            Except.ok ((if cells = [] then "No written cells in scan radius"
                        else jsonOfPairs cells), st)
  else if name = "tape_status" then
    Except.ok ((status st.tape).2, st)
  else if name = "code_read" then
    match getArg args "path" with
    | Except.error e => Except.error e
    | Except.ok (Arg.int _) =>
        Except.error (PyExc.typeError
          "expected str, bytes or os.PathLike object, not int")
    | Except.ok (Arg.str p) =>
        match read_file env.root st.fs p with
        | Except.ok c => Except.ok (c, st)
        | Except.error e => Except.error e
  else if name = "code_write" then
    match getArg args "path", getArg args "content" with
    | Except.error e, _ => Except.error e
    | _, Except.error e => Except.error e
    | Except.ok (Arg.int _), _ =>
        Except.error (PyExc.typeError
          "expected str, bytes or os.PathLike object, not int")
    | Except.ok (Arg.str _), Except.ok (Arg.int _) =>
        Except.error (PyExc.typeError "data must be str, not int")
    | Except.ok (Arg.str p), Except.ok (Arg.str content) =>
        match write_file env.root env.core_files st.fs p content with
        | Except.ok (msg, fs2) => Except.ok (msg, { st with fs := fs2 })
        | Except.error e => Except.error e
  else if name = "code_delete" then
    match getArg args "path" with
    | Except.error e => Except.error e
    | Except.ok (Arg.int _) =>
        Except.error (PyExc.typeError
          "expected str, bytes or os.PathLike object, not int")
    | Except.ok (Arg.str p) =>
        match delete_file env.root env.core_files st.fs p with
        | Except.ok (msg, fs2) => Except.ok (msg, { st with fs := fs2 })
        | Except.error e => Except.error e
  else if name = "code_list" then
    Except.ok (jsonOfFileList (list_files env.root env.core_files st.fs), st)
  else if name = "code_exec" then
    match getArg args "path" with
    | Except.error e => Except.error e
    | Except.ok (Arg.int _) =>
        Except.error (PyExc.attributeError
          "\x27int\x27 object has no attribute \x27startswith\x27")
    | Except.ok (Arg.str p) =>
        match hot_load env.root st.fs env.sandboxRun p with
        | Except.ok msg => Except.ok (msg, st)
        | Except.error e => Except.error e
  else
    Except.ok ("Unknown tool: " ++ name, st)

/-- The `except` clauses of `Brain._dispatch_tool`: the tag each caught
exception class gets. (`CoreProtectionError` and `PermissionError`
share the first clause; everything else lands in the generic
`Exception` clause, tagged with the class name.) -/
def faultToString : PyExc → String
  | PyExc.coreProtectionError m => "🔒 PROTECTION ERROR: " ++ m
  | PyExc.permissionError m => "🔒 PROTECTION ERROR: " ++ m
  | PyExc.fileNotFoundError m => "❌ FILE NOT FOUND: " ++ m
  | PyExc.isADirectoryError m => "⚠️ ERROR: IsADirectoryError: " ++ m
  | PyExc.typeError m => "⚠️ ERROR: TypeError: " ++ m
  | PyExc.valueError m => "⚠️ ERROR: ValueError: " ++ m
  | PyExc.importError m => "⚠️ ERROR: ImportError: " ++ m
  | PyExc.keyError m => "⚠️ ERROR: KeyError: " ++ m
  | PyExc.attributeError m => "⚠️ ERROR: AttributeError: " ++ m

/-- `Brain._dispatch_tool`: the `try`/`except` wrapper around the chain. -/
def dispatch_tool (env : BrainEnv) (st : BrainState) (name : String)
    (args : List (String × Arg)) : String × BrainState :=
  match dispatchInner env st name args with
  | Except.ok r => r
  | Except.error e => (faultToString e, st)

/-- A tool-log record: `{tool, args, result}`. -/
structure ToolRec where
  tool : String
  args : List (String × Arg)
  result : String
deriving DecidableEq, Repr

/-- Python list slicing `l[i:]`, for the slices `_trim_history` forms. -/
def pySliceFrom (l : List Msg) (i : Int) : List Msg :=
  if 0 ≤ i then l.drop i.toNat else l.drop (l.length - (-i).toNat)

/-- `Brain._trim_history`:
`history[:1] + history[-(max_history - 1):]` when over the limit. -/
def trim_history (max_history : Nat) (history : List Msg) : List Msg :=
  if history.length > max_history then
    history.take 1 ++ pySliceFrom history (-((max_history : Int) - 1))
  else history

/-- The per-message tool-processing loop inside `Brain.think`: dispatch
each requested call, feed the result back as a tool-role message, and
record it in the tool log. -/
def runToolCalls (env : BrainEnv) :
    List ToolCall → BrainState → List Msg → List ToolRec →
      BrainState × List Msg × List ToolRec
  | [], st, h, log => (st, h, log)
  | tc :: rest, st, h, log =>
      let r := dispatch_tool env st tc.name tc.args
      runToolCalls env rest r.2 (h ++ [Msg.mk Role.tool r.1 []])
        (log ++ [ToolRec.mk tc.name tc.args r.1])

/-- The outcome of one `Brain.think` call; `rounds` instruments the
number of reasoning-backend round trips the loop performed. -/
structure ThinkResult where
  text : String
  toolLog : List ToolRec
  state : BrainState
  history : List Msg
  rounds : Nat

/-- The `for _ in range(max_tool_rounds)` loop of `Brain.think`,
unrolled over the remaining rounds; the backend is a pure stub from the
current history to one assistant message. -/
def thinkLoop (env : BrainEnv) (backend : List Msg → AsstMsg) :
    Nat → BrainState → List Msg → List ToolRec → ThinkResult
  | 0, st, h, log => ThinkResult.mk "(max tool-call depth reached)" log st h 0
  | n+1, st, h, log =>
      let m := backend h
      let h2 := h ++ [Msg.mk Role.assistant m.content m.toolCalls]
      if m.toolCalls = [] then ThinkResult.mk m.content log st h2 1
      else
        let r := runToolCalls env m.toolCalls st h2 log
        let out := thinkLoop env backend n r.1 r.2.1 r.2.2
        ThinkResult.mk out.text out.toolLog out.state out.history (out.rounds + 1)

/-- The first stanza of `Brain.think`: set/update the system prompt as
the first history message (insert if absent or not system-role, else
overwrite its content). -/
def upsertSystem (system_prompt : String) (history : List Msg) : List Msg :=
  match history with
  | [] => Msg.mk Role.system system_prompt [] :: history
  | m0 :: rest =>
      if ¬(m0.role = Role.system) then Msg.mk Role.system system_prompt [] :: history
      else { m0 with content := system_prompt } :: rest

/-- `Brain.think`: upsert the system prompt at history position 0,
append the user message, trim, then run the bounded tool loop. -/
def think (env : BrainEnv) (backend : List Msg → AsstMsg) (max_history : Nat)
    (system_prompt user_message : String) (st : BrainState)
    (history : List Msg) : ThinkResult :=
  thinkLoop env backend 10 st
    (trim_history max_history
      (upsertSystem system_prompt history ++ [Msg.mk Role.user user_message []])) []

theorem runToolCalls_log_len (env : BrainEnv) :
    ∀ (tcs : List ToolCall) (st : BrainState) (h : List Msg) (log : List ToolRec),
      ((runToolCalls env tcs st h log).2.2).length = log.length + tcs.length := by
  intro tcs
  induction tcs with
  | nil => intro st h log; simp [runToolCalls]
  | cons tc rest ih =>
      intro st h log
      simp only [runToolCalls]
      rw [ih]
      simp only [List.length_append, List.length_cons, List.length_nil]
      omega

theorem runToolCalls_head (env : BrainEnv) :
    ∀ (tcs : List ToolCall) (st : BrainState) (h : List Msg) (log : List ToolRec),
      h ≠ [] →
      ((runToolCalls env tcs st h log).2.1).head? = h.head? ∧
        (runToolCalls env tcs st h log).2.1 ≠ [] := by
  intro tcs
  induction tcs with
  | nil => intro st h log hne; exact ⟨rfl, hne⟩
  | cons tc rest ih =>
      intro st h log hne
      simp only [runToolCalls]
      have happ : (h ++ [Msg.mk Role.tool (dispatch_tool env st tc.name tc.args).1 []]).head? = h.head? := by
        cases h with
        | nil => exact absurd rfl hne
        | cons m ms => rfl
      have hne2 : h ++ [Msg.mk Role.tool (dispatch_tool env st tc.name tc.args).1 []] ≠ [] := by
        simp
      obtain ⟨ih1, ih2⟩ := ih (dispatch_tool env st tc.name tc.args).2
        (h ++ [Msg.mk Role.tool (dispatch_tool env st tc.name tc.args).1 []])
        (log ++ [ToolRec.mk tc.name tc.args (dispatch_tool env st tc.name tc.args).1]) hne2
      exact ⟨ih1.trans happ, ih2⟩

theorem thinkLoop_rounds_le (env : BrainEnv) (backend : List Msg → AsstMsg) :
    ∀ (n : Nat) (st : BrainState) (h : List Msg) (log : List ToolRec),
      (thinkLoop env backend n st h log).rounds ≤ n := by
  intro n
  induction n with
  | zero => intro st h log; simp [thinkLoop]
  | succ n ih =>
      intro st h log
      simp only [thinkLoop]
      by_cases hc : (backend h).toolCalls = []
      · simp [hc]
      · simp only [if_neg hc]
        have := ih (runToolCalls env (backend h).toolCalls st
            (h ++ [Msg.mk Role.assistant (backend h).content (backend h).toolCalls]) log).1
          (runToolCalls env (backend h).toolCalls st
            (h ++ [Msg.mk Role.assistant (backend h).content (backend h).toolCalls]) log).2.1
          (runToolCalls env (backend h).toolCalls st
            (h ++ [Msg.mk Role.assistant (backend h).content (backend h).toolCalls]) log).2.2
        omega

theorem thinkLoop_exhaust (env : BrainEnv) (backend : List Msg → AsstMsg)
    (hb : ∀ h, ((backend h).toolCalls).length = 1) :
    ∀ (n : Nat) (st : BrainState) (h : List Msg) (log : List ToolRec),
      (thinkLoop env backend n st h log).text = "(max tool-call depth reached)" ∧
        ((thinkLoop env backend n st h log).toolLog).length = log.length + n ∧
        (thinkLoop env backend n st h log).rounds = n := by
  intro n
  induction n with
  | zero => intro st h log; simp [thinkLoop]
  | succ n ih =>
      intro st h log
      have hne : ¬((backend h).toolCalls = []) := by
        intro hc
        have := hb h
        rw [hc] at this
        simp at this
      simp only [thinkLoop, if_neg hne]
      obtain ⟨ih1, ih2, ih3⟩ := ih (runToolCalls env (backend h).toolCalls st
          (h ++ [Msg.mk Role.assistant (backend h).content (backend h).toolCalls]) log).1
        (runToolCalls env (backend h).toolCalls st
          (h ++ [Msg.mk Role.assistant (backend h).content (backend h).toolCalls]) log).2.1
        (runToolCalls env (backend h).toolCalls st
          (h ++ [Msg.mk Role.assistant (backend h).content (backend h).toolCalls]) log).2.2
      refine ⟨ih1, ?_, by rw [ih3]⟩
      rw [ih2, runToolCalls_log_len, hb h]
      omega

theorem thinkLoop_head (env : BrainEnv) (backend : List Msg → AsstMsg) :
    ∀ (n : Nat) (st : BrainState) (h : List Msg) (log : List ToolRec),
      h ≠ [] →
      ((thinkLoop env backend n st h log).history).head? = h.head? := by
  intro n
  induction n with
  | zero => intro st h log _; rfl
  | succ n ih =>
      intro st h log hne
      have happ : (h ++ [Msg.mk Role.assistant (backend h).content (backend h).toolCalls]).head? = h.head? := by
        cases h with
        | nil => exact absurd rfl hne
        | cons m ms => rfl
      have hne2 : h ++ [Msg.mk Role.assistant (backend h).content (backend h).toolCalls] ≠ [] := by
        simp
      simp only [thinkLoop]
      by_cases hc : (backend h).toolCalls = []
      · simp only [if_pos hc]
        exact happ
      · simp only [if_neg hc]
        obtain ⟨hr1, hr2⟩ := runToolCalls_head env (backend h).toolCalls st
          (h ++ [Msg.mk Role.assistant (backend h).content (backend h).toolCalls]) log hne2
        rw [ih _ _ _ hr2, hr1, happ]

theorem head?_eq_of_take_one {l l' : List Msg} (h : l.take 1 = l'.take 1) :
    l.head? = l'.head? := by
  cases l with
  | nil =>
      cases l' with
      | nil => rfl
      | cons b bs => simp [List.take] at h
  | cons a as =>
      cases l' with
      | nil => simp [List.take] at h
      | cons b bs =>
          simp only [List.take, List.cons.injEq] at h
          simp [h.1]

theorem trim_history_shape (max_history : Nat) (hmax : 2 ≤ max_history)
    (hist : List Msg) :
    (trim_history max_history hist).take 1 = hist.take 1 ∧
      (trim_history max_history hist).length = min hist.length max_history ∧
      ∃ k, trim_history max_history hist = hist.take 1 ++ (hist.drop 1).drop k := by
  by_cases hlen : hist.length > max_history
  · have hslice : pySliceFrom hist (-((max_history : Int) - 1)) =
        hist.drop (hist.length - (max_history - 1)) := by
      unfold pySliceFrom
      rw [if_neg (by omega)]
      congr 1
      omega
    have htrim : trim_history max_history hist =
        hist.take 1 ++ hist.drop (hist.length - (max_history - 1)) := by
      unfold trim_history
      rw [if_pos hlen, hslice]
    refine ⟨?_, ?_, ?_⟩
    · rw [htrim, List.take_append_eq_append_take]
      have h1 : (hist.take 1).length = 1 := by
        rw [List.length_take]
        omega
      rw [List.take_take]
      simp [h1]
    · rw [htrim]
      simp only [List.length_append, List.length_take, List.length_drop]
      omega
    · refine ⟨hist.length - max_history, ?_⟩
      rw [htrim, List.drop_drop]
      congr 2
      omega
  · unfold trim_history
    rw [if_neg hlen]
    refine ⟨rfl, by omega, 0, ?_⟩
    rw [List.drop_zero, List.take_append_drop]

theorem normalize_lookup (s : String) :
    (pyLower (pyStrip s) ∈ DIRECTIONS.map Prod.fst ++ moveAliases.map Prod.fst) ↔
      (lookupAssoc DIRECTIONS (normalizeDir s)).isSome = true := by
  constructor
  · intro hmem
    unfold normalizeDir
    generalize pyLower (pyStrip s) = d0 at hmem ⊢
    fin_cases hmem <;> decide
  · intro hsome
    by_contra hmem
    have hali : lookupAssoc moveAliases (pyLower (pyStrip s)) = none :=
      lookupAssoc_eq_none _ _ (fun hm => hmem (List.mem_append.mpr (Or.inr hm)))
    have hdir : lookupAssoc DIRECTIONS (pyLower (pyStrip s)) = none :=
      lookupAssoc_eq_none _ _ (fun hm => hmem (List.mem_append.mpr (Or.inl hm)))
    unfold normalizeDir at hsome
    rw [hali] at hsome
    simp only [Option.getD_none] at hsome
    rw [hdir] at hsome
    simp at hsome

/-- C7: For every input string, `move(direction)`: after trimming and
lower-casing, exactly the 6 canonical axis tokens and 7 aliases (two of
which map to the same axis) are accepted, and the new cursor equals the
old cursor plus the corresponding unit vector; every other string fails
with InvalidDirection (`ValueError`) and leaves the cursor and cell map
unchanged. -/
theorem move_direction_spec (dir : String) (t : Tape) :
    ((DIRECTIONS.map Prod.fst).length = 6 ∧ (moveAliases.map Prod.fst).length = 7 ∧
      (moveAliases.map Prod.fst).Nodup ∧ normalizeDir "backward" = normalizeDir "back") ∧
    (pyLower (pyStrip dir) ∈ DIRECTIONS.map Prod.fst ++ moveAliases.map Prod.fst →
      ∃ v, lookupAssoc DIRECTIONS (normalizeDir dir) = some v ∧
        move dir t =
          ({ t with head := (t.head.1 + v.1, t.head.2.1 + v.2.1, t.head.2.2 + v.2.2) },
           Except.ok ("Moved " ++ normalizeDir dir ++ " → head now at " ++
             renderTriple (t.head.1 + v.1, t.head.2.1 + v.2.1, t.head.2.2 + v.2.2)))) ∧
    (pyLower (pyStrip dir) ∉ DIRECTIONS.map Prod.fst ++ moveAliases.map Prod.fst →
      move dir t = (t, Except.error (TapeErr.invalidDirection (normalizeDir dir)))) := by
  refine ⟨⟨by decide, by decide, by decide, by decide⟩, ?_, ?_⟩
  · intro hmem
    obtain ⟨v, hv⟩ := Option.isSome_iff_exists.mp ((normalize_lookup dir).mp hmem)
    refine ⟨v, hv, ?_⟩
    unfold move
    rw [hv]
  · intro hmem
    have hnone : lookupAssoc DIRECTIONS (normalizeDir dir) = none := by
      rcases ho : lookupAssoc DIRECTIONS (normalizeDir dir) with _ | v
      · rfl
      · exact absurd ((normalize_lookup dir).mpr (by rw [ho]; rfl)) hmem
    unfold move
    rw [hnone]

/-- Witness for `move_direction_spec` at the concrete input `" +X "`. -/
theorem move_direction_spec_witness :
    move " +X " (Tape.mk [] (0, 0, 0)) =
      (Tape.mk [] (1, 0, 0), Except.ok "Moved +x → head now at (1, 0, 0)") := by
  obtain ⟨v, hv, he⟩ := (move_direction_spec " +X " (Tape.mk [] (0, 0, 0))).2.1 (by decide)
  have hv2 : v = ((1 : Int), (0 : Int), (0 : Int)) := by
    have hn : normalizeDir " +X " = "+x" := by decide
    rw [hn] at hv
    have : some ((1 : Int), (0 : Int), (0 : Int)) = some v := by
      rw [← hv]; decide
    exact (Option.some.injEq _ _ ▸ this).symm
  rw [he, hv2]
  refine Prod.ext ?_ (congrArg Except.ok ?_)
  · decide
  · decide

theorem scan_mem (t : Tape) (r : Int) (k v : String) :
    ((k, v) ∈ t.cells.filterMap (fun p =>
        if |p.1.1 - t.head.1| ≤ r ∧ |p.1.2.1 - t.head.2.1| ≤ r ∧
           |p.1.2.2 - t.head.2.2| ≤ r
        then some (renderKey p.1, p.2) else none)) ↔
      ∃ c, (c, v) ∈ t.cells ∧
        (|c.1 - t.head.1| ≤ r ∧ |c.2.1 - t.head.2.1| ≤ r ∧ |c.2.2 - t.head.2.2| ≤ r) ∧
        k = renderKey c := by
  rw [List.mem_filterMap]
  constructor
  · rintro ⟨⟨c, w⟩, hp, hf⟩
    by_cases hc : |c.1 - t.head.1| ≤ r ∧ |c.2.1 - t.head.2.1| ≤ r ∧ |c.2.2 - t.head.2.2| ≤ r
    · rw [if_pos hc] at hf
      obtain ⟨hk, hv⟩ := Prod.mk.injEq _ _ _ _ ▸ Option.some.injEq _ _ ▸ hf
      exact ⟨c, hv ▸ hp, hc, hk.symm⟩
    · rw [if_neg hc] at hf
      exact absurd hf (by simp)
  · rintro ⟨c, hm, hc, rfl⟩
    exact ⟨(c, v), hm, by rw [if_pos hc]⟩

/-- C8: for every tape state and radius r ≥ 0, `scan(r)` returns
exactly the stored cells within Chebyshev distance r of the cursor,
keyed as "x,y,z" strings; `scan(0)` returns only the cursor cell if
non-empty; every r < 0 fails with InvalidRadius. -/
theorem scan_radius_spec (t : Tape) (r : Int) :
    (r < 0 → scan_neighborhood r t = (t, Except.error TapeErr.invalidRadius)) ∧
    (0 ≤ r → ∃ res, (scan_neighborhood r t).2 = Except.ok res ∧
      ∀ k v : String, (k, v) ∈ res ↔
        ∃ c, (c, v) ∈ t.cells ∧
          max (max |c.1 - t.head.1| |c.2.1 - t.head.2.1|) |c.2.2 - t.head.2.2| ≤ r ∧
          k = renderKey c) ∧
    (∃ res0, (scan_neighborhood 0 t).2 = Except.ok res0 ∧
      ∀ k v : String, (k, v) ∈ res0 ↔ ((t.head, v) ∈ t.cells ∧ k = renderKey t.head)) := by
  refine ⟨?_, ?_, ?_⟩
  · intro hneg
    unfold scan_neighborhood
    rw [if_pos hneg]
  · intro hr
    refine ⟨_, by unfold scan_neighborhood; rw [if_neg (not_lt.mpr hr)], ?_⟩
    intro k v
    rw [scan_mem t r k v]
    constructor
    · rintro ⟨c, hm, hc, rfl⟩
      exact ⟨c, hm, by rw [max_le_iff, max_le_iff]; exact ⟨⟨hc.1, hc.2.1⟩, hc.2.2⟩, rfl⟩
    · rintro ⟨c, hm, hc, rfl⟩
      rw [max_le_iff, max_le_iff] at hc
      exact ⟨c, hm, ⟨hc.1.1, hc.1.2, hc.2⟩, rfl⟩
  · refine ⟨_, by unfold scan_neighborhood; rw [if_neg (by omega)], ?_⟩
    intro k v
    rw [scan_mem t 0 k v]
    constructor
    · rintro ⟨c, hm, hc, rfl⟩
      have h1 : c.1 = t.head.1 := by
        have := abs_nonpos_iff.mp hc.1
        omega
      have h2 : c.2.1 = t.head.2.1 := by
        have := abs_nonpos_iff.mp hc.2.1
        omega
      have h3 : c.2.2 = t.head.2.2 := by
        have := abs_nonpos_iff.mp hc.2.2
        omega
      have hch : c = t.head := Prod.ext h1 (Prod.ext h2 h3)
      rw [hch] at hm ⊢
      exact ⟨hm, rfl⟩
    · rintro ⟨hm, rfl⟩
      exact ⟨t.head, hm, by simp, rfl⟩

/-- Witness for `scan_radius_spec` at a concrete tape and radius. -/
theorem scan_radius_spec_witness :
    scan_neighborhood (-1) (Tape.mk [((0, 0, 0), "a")] (0, 0, 0)) =
      (Tape.mk [((0, 0, 0), "a")] (0, 0, 0), Except.error TapeErr.invalidRadius) :=
  (scan_radius_spec (Tape.mk [((0, 0, 0), "a")] (0, 0, 0)) (-1)).1 (by decide)

/-- C10 (implicit): the observer operations `read()`,
`scan_neighborhood(r)` with r ≥ 0, and `status()` leave the entire
tape state (cursor and cell map) unchanged. -/
theorem observer_frame_spec (t : Tape) (r : Int) (_hr : 0 ≤ r) :
    (readCell t).1 = t ∧ (scan_neighborhood r t).1 = t ∧ (status t).1 = t := by
  refine ⟨rfl, ?_, rfl⟩
  unfold scan_neighborhood
  split <;> rfl

/-- Witness for `observer_frame_spec` at a concrete tape and radius. -/
theorem observer_frame_spec_witness :
    (readCell (Tape.mk [((0, 0, 0), "a")] (0, 0, 0))).1 = Tape.mk [((0, 0, 0), "a")] (0, 0, 0) ∧
    (scan_neighborhood 1 (Tape.mk [((0, 0, 0), "a")] (0, 0, 0))).1 =
      Tape.mk [((0, 0, 0), "a")] (0, 0, 0) ∧
    (status (Tape.mk [((0, 0, 0), "a")] (0, 0, 0))).1 = Tape.mk [((0, 0, 0), "a")] (0, 0, 0) :=
  observer_frame_spec (Tape.mk [((0, 0, 0), "a")] (0, 0, 0)) 1 (by decide)

/-- C6: on every reachable tape state the sparsity invariant holds: no
cell-map entry is the empty string; writing a non-empty v then reading
gives v; writing "" then reading gives "" and the cursor's coordinate
is absent from the serialized cell map. -/
theorem sparsity_spec (t : Tape) (ht : Reachable t) :
    (∀ p ∈ t.cells, p.2 ≠ "") ∧
    (∀ v : String, ¬(v = "") → (readCell (write v t).1).2 = v) ∧
    (readCell (write "" t).1).2 = "" ∧
    (∀ v : String, (renderKey t.head, v) ∉ (to_dict (write "" t).1).cells) := by
  obtain ⟨hval, hnodup⟩ := reachable_inv t ht
  have hw0 : (write "" t).1 = { t with cells := removeCell t.cells t.head } := by
    simp [write]
  refine ⟨hval, ?_, ?_, ?_⟩
  · intro v hv
    have hw : (write v t).1 = { t with cells := upsertCell t.cells t.head v } := by
      simp [write, hv]
    rw [hw]
    show (lookupCell (upsertCell t.cells t.head v) t.head).getD "" = v
    rw [lookupCell_upsert]
    rfl
  · rw [hw0]
    show (lookupCell (removeCell t.cells t.head) t.head).getD "" = ""
    rw [lookupCell_eq_none _ _ (not_mem_keys_removeCell _ _ hnodup)]
    rfl
  · intro v hv
    rw [hw0] at hv
    simp only [to_dict, List.mem_map] at hv
    obtain ⟨p, hp, hpe⟩ := hv
    obtain ⟨hk, _⟩ := Prod.mk.injEq _ _ _ _ ▸ hpe
    have hph : p.1 = t.head := renderKey_injective hk
    have hmem2 : p.1 ∈ (removeCell t.cells t.head).map Prod.fst :=
      List.mem_map_of_mem Prod.fst hp
    rw [hph] at hmem2
    exact not_mem_keys_removeCell t.cells t.head hnodup hmem2

/-- Witness for `sparsity_spec` at a concrete reachable tape. -/
theorem sparsity_spec_witness :
    (readCell (write "" (write "a" tapeInit).1).1).2 = "" :=
  (sparsity_spec (write "a" tapeInit).1 (Reachable.write "a" tapeInit Reachable.init)).2.2.1

/-- C9: for every reachable tape state, serialize-then-deserialize
(`from_dict(to_dict(state))`) reproduces the state exactly: identical
cursor and identical cell map. -/
theorem roundtrip_spec (t : Tape) (ht : Reachable t) :
    from_dict (to_dict t) = t :=
  from_dict_to_dict t (reachable_inv t ht).2

/-- Witness for `roundtrip_spec` at a concrete reachable tape built by
a write, a move and a jump. -/
theorem roundtrip_spec_witness :
    from_dict (to_dict (jump 2 (-3) 4 (move "up" (write "a" tapeInit).1).1).1) =
      (jump 2 (-3) 4 (move "up" (write "a" tapeInit).1).1).1 :=
  roundtrip_spec _
    (Reachable.jump 2 (-3) 4 _ (Reachable.move "up" _ (Reachable.write "a" tapeInit Reachable.init)))

/-- C1: the claim states `write_file`/`delete_file` are permitted only
if the RESOLVED path lies under `extensions/`. The code instead tests
only the first component of the relative path as given, so the path
`"extensions/../stray.txt"` is permitted although it resolves to
`<root>/stray.txt`, outside the writable subtree: the permission check
of the code diverges from the resolved-path contract (and from the
method's own docstring). This theorem exhibits the failing input. -/
theorem write_file_escapes_writable_subtree :
    is_core_protected CORE_FILES "extensions/../stray.txt" = false ∧
    write_file ["tmp", "proj"] CORE_FILES (CodebaseFS.mk []) "extensions/../stray.txt" "x" =
      Except.ok ("Successfully wrote 1 bytes to extensions/../stray.txt",
        CodebaseFS.mk [(["tmp", "proj", "stray.txt"], "x")]) ∧
    delete_file ["tmp", "proj"] CORE_FILES
        (CodebaseFS.mk [(["tmp", "proj", "stray.txt"], "x")]) "extensions/../stray.txt" =
      Except.ok ("Deleted extensions/../stray.txt", CodebaseFS.mk []) ∧
    resolveComponents ["tmp", "proj"] (pathParts "extensions/../stray.txt") =
      ["tmp", "proj", "stray.txt"] ∧
    pyStartsWith
      (renderAbsPath (resolveComponents ["tmp", "proj"] (pathParts "extensions/../stray.txt")))
      (renderAbsPath (["tmp", "proj"] ++ ["extensions"])) = false := by
  exact ⟨by decide, by decide, by decide, by decide, by decide⟩

set_option maxRecDepth 4000 in
/-- C5: the sandbox import hook permits a module iff its name is
allow-listed or is a sub-namespace of an allow-listed name; every other
name is rejected with an `ImportError` whose message names the allowed
set; a runtime fault raised inside sandboxed code propagates unchanged. -/
theorem sandbox_import_spec :
    (∀ name : String, is_module_allowed name = true ↔
      (name ∈ ALLOWED_MODULES ∨ ∃ a ∈ ALLOWED_MODULES, pyStartsWith name (a ++ ".") = true)) ∧
    (∀ (name : String) (ns : List (String × SandboxVal)) (rest : List SandboxStmt),
      is_module_allowed name = false →
      sandboxed_exec (SandboxStmt.importM name :: rest) ns =
        SandboxOutcome.blockedImport (blockedImportMsg name)) ∧
    (∀ m ∈ ALLOWED_MODULES, ∀ name : String,
      m.data <:+: (blockedImportMsg name).data) ∧
    (∀ (pre : List SandboxStmt) (ty msg : String) (rest : List SandboxStmt)
        (ns ns2 : List (String × SandboxVal)),
      sandboxed_exec pre ns = SandboxOutcome.ok ns2 →
      sandboxed_exec (pre ++ SandboxStmt.raiseF ty msg :: rest) ns =
        SandboxOutcome.fault ty msg) := by
  refine ⟨?_, ?_, ?_, ?_⟩
  · intro name
    unfold is_module_allowed
    by_cases h1 : ALLOWED_MODULES.contains name
    · simp only [if_pos h1]
      simp only [true_iff]
      exact Or.inl (by simpa using h1)
    · rw [if_neg h1]
      by_cases h2 : ALLOWED_MODULES.any (fun allowed => pyStartsWith name (allowed ++ "."))
      · simp only [if_pos h2]
        rw [List.any_eq_true] at h2
        simp only [true_iff]
        exact Or.inr h2
      · rw [if_neg h2]
        have hff : ∀ b : Bool, (if b = true then false else false) = false := by
          intro b
          cases b <;> rfl
        rw [hff]
        constructor
        · intro hfalse
          exact absurd hfalse (by simp)
        · rintro (hmem | hsub)
          · exact absurd (by simpa using hmem) h1
          · exact absurd (List.any_eq_true.mpr hsub) h2
  · intro name ns rest h
    simp [sandboxed_exec, h]
  · intro m hm name
    have h1 : m.data <:+: (renderStrList (pySorted ALLOWED_MODULES)).data := by
      fin_cases hm <;> decide
    have h2 : (renderStrList (pySorted ALLOWED_MODULES)).data <:+ (blockedImportMsg name).data := by
      unfold blockedImportMsg
      rw [String.data_append]
      exact List.suffix_append _ _
    exact h1.trans ( List.IsSuffix.isInfix h2)
  · intro pre
    induction pre with
    | nil =>
        intro ty msg rest ns ns2 _
        simp [sandboxed_exec]
    | cons s pre ih =>
        intro ty msg rest ns ns2 hok
        cases s with
        | importM nm =>
            by_cases ha : is_module_allowed nm
            · simp only [List.cons_append, sandboxed_exec, if_pos ha] at hok ⊢
              exact ih ty msg rest _ ns2 hok
            · rw [sandboxed_exec, if_neg ha] at hok
              exact absurd hok (by simp)
        | raiseF ty2 msg2 =>
            rw [sandboxed_exec] at hok
            exact absurd hok (by simp)
        | assign x v =>
            simp only [List.cons_append, sandboxed_exec] at hok ⊢
            exact ih ty msg rest _ ns2 hok

/-- Witness for `sandbox_import_spec`: `import os` is rejected with the
message naming the allowed set, and a raised fault propagates. -/
theorem sandbox_import_spec_witness :
    sandboxed_exec [SandboxStmt.importM "os"] [] =
      SandboxOutcome.blockedImport (blockedImportMsg "os") ∧
    sandboxed_exec [SandboxStmt.raiseF "ZeroDivisionError" "division by zero"] [] =
      SandboxOutcome.fault "ZeroDivisionError" "division by zero" :=
  ⟨(sandbox_import_spec).2.1 "os" [] [] (by decide),
   (sandbox_import_spec).2.2.2 [] "ZeroDivisionError" "division by zero" [] [] [] rfl⟩

/-- C3: `_dispatch_tool` always returns a result string and never
propagates an exception: every fault of the dispatched operations is
converted to the tagged string of its `except` clause with the state
untouched, a successful operation's string is returned as-is, and a
tool name outside the defined operations yields the literal
"Unknown tool: ..." result rather than an exception. -/
theorem dispatch_tool_spec (env : BrainEnv) (st : BrainState) (name : String)
    (args : List (String × Arg)) :
    (∀ e, dispatchInner env st name args = Except.error e →
      dispatch_tool env st name args = (faultToString e, st)) ∧
    (∀ r, dispatchInner env st name args = Except.ok r →
      dispatch_tool env st name args = r) ∧
    (name ∉ dispatchToolNames →
      dispatch_tool env st name args = ("Unknown tool: " ++ name, st)) := by
  refine ⟨?_, ?_, ?_⟩
  · intro e he
    unfold dispatch_tool
    rw [he]
  · intro r hr
    unfold dispatch_tool
    rw [hr]
  · intro hmem
    have h1 : ¬(name = "tape_read") := fun hEq => hmem (by rw [hEq]; decide)
    have h2 : ¬(name = "tape_write") := fun hEq => hmem (by rw [hEq]; decide)
    have h3 : ¬(name = "tape_move") := fun hEq => hmem (by rw [hEq]; decide)
    have h4 : ¬(name = "tape_jump") := fun hEq => hmem (by rw [hEq]; decide)
    have h5 : ¬(name = "tape_scan") := fun hEq => hmem (by rw [hEq]; decide)
    have h6 : ¬(name = "tape_status") := fun hEq => hmem (by rw [hEq]; decide)
    have h7 : ¬(name = "code_read") := fun hEq => hmem (by rw [hEq]; decide)
    have h8 : ¬(name = "code_write") := fun hEq => hmem (by rw [hEq]; decide)
    have h9 : ¬(name = "code_delete") := fun hEq => hmem (by rw [hEq]; decide)
    have h10 : ¬(name = "code_list") := fun hEq => hmem (by rw [hEq]; decide)
    have h11 : ¬(name = "code_exec") := fun hEq => hmem (by rw [hEq]; decide)
    have hinner : dispatchInner env st name args = Except.ok ("Unknown tool: " ++ name, st) := by
      unfold dispatchInner
      rw [if_neg h1, if_neg h2, if_neg h3, if_neg h4, if_neg h5, if_neg h6,
          if_neg h7, if_neg h8, if_neg h9, if_neg h10, if_neg h11]
    unfold dispatch_tool
    rw [hinner]

/-- Witness for `dispatch_tool_spec`: an unknown tool name and a
faulting dispatch both come back as plain result strings. -/
theorem dispatch_tool_spec_witness :
    dispatch_tool (BrainEnv.mk ["tmp", "proj"] CORE_FILES (fun _ => Except.ok []))
        (BrainState.mk tapeInit (CodebaseFS.mk [])) "nonexistent_tool" [] =
      ("Unknown tool: nonexistent_tool", BrainState.mk tapeInit (CodebaseFS.mk [])) :=
  (dispatch_tool_spec (BrainEnv.mk ["tmp", "proj"] CORE_FILES (fun _ => Except.ok []))
    (BrainState.mk tapeInit (CodebaseFS.mk [])) "nonexistent_tool" []).2.2 (by decide)

/-- C2: with a reasoning backend that issues one tool call on every
round, `Brain.think` terminates after exactly 10 rounds, returning the
fixed exhaustion sentinel and a toolLog of exactly 10 entries; and for
every backend the loop performs at most 10 rounds. -/
theorem think_exhaustion_spec (env : BrainEnv) (backend : List Msg → AsstMsg)
    (max_history : Nat) (sp um : String) (st : BrainState) (history : List Msg)
    (hb : ∀ h, ((backend h).toolCalls).length = 1) :
    (think env backend max_history sp um st history).text = "(max tool-call depth reached)" ∧
    ((think env backend max_history sp um st history).toolLog).length = 10 ∧
    (think env backend max_history sp um st history).rounds = 10 ∧
    (∀ (backend2 : List Msg → AsstMsg) (st2 : BrainState) (h2 : List Msg),
      (think env backend2 max_history sp um st2 h2).rounds ≤ 10) := by
  refine ⟨(thinkLoop_exhaust env backend hb 10 _ _ _).1, ?_,
    (thinkLoop_exhaust env backend hb 10 _ _ _).2.2, ?_⟩
  · have := (thinkLoop_exhaust env backend hb 10 st
      (trim_history max_history
        (upsertSystem sp history ++ [Msg.mk Role.user um []])) []).2.1
    rw [show (10 : Nat) = List.length ([] : List ToolRec) + 10 from rfl]
    exact this
  · intro backend2 st2 h2
    exact thinkLoop_rounds_le env backend2 10 _ _ _

/-- Witness for `think_exhaustion_spec` with a concrete always-calling
backend stub. -/
theorem think_exhaustion_spec_witness :
    (think (BrainEnv.mk ["tmp", "proj"] CORE_FILES (fun _ => Except.ok []))
      (fun _ => AsstMsg.mk "" [ToolCall.mk "tape_read" []]) 50 "sys" "hello"
      (BrainState.mk tapeInit (CodebaseFS.mk [])) []).text = "(max tool-call depth reached)" ∧
    ((think (BrainEnv.mk ["tmp", "proj"] CORE_FILES (fun _ => Except.ok []))
      (fun _ => AsstMsg.mk "" [ToolCall.mk "tape_read" []]) 50 "sys" "hello"
      (BrainState.mk tapeInit (CodebaseFS.mk [])) []).toolLog).length = 10 :=
  ⟨(think_exhaustion_spec (BrainEnv.mk ["tmp", "proj"] CORE_FILES (fun _ => Except.ok []))
      (fun _ => AsstMsg.mk "" [ToolCall.mk "tape_read" []]) 50 "sys" "hello"
      (BrainState.mk tapeInit (CodebaseFS.mk [])) [] (fun _ => rfl)).1,
   (think_exhaustion_spec (BrainEnv.mk ["tmp", "proj"] CORE_FILES (fun _ => Except.ok []))
      (fun _ => AsstMsg.mk "" [ToolCall.mk "tape_read" []]) 50 "sys" "hello"
      (BrainState.mk tapeInit (CodebaseFS.mk [])) [] (fun _ => rfl)).2.1⟩

theorem trim_history_take_one (max_history : Nat) (hist : List Msg) :
    (trim_history max_history hist).take 1 = hist.take 1 := by
  unfold trim_history
  split
  · next hlen =>
      rw [List.take_append_eq_append_take, List.take_take]
      have h1 : (hist.take 1).length = 1 := by
        rw [List.length_take]
        omega
      simp [h1]
  · rfl

theorem upsertSystem_head (sp : String) (history : List Msg) :
    ∃ m, (upsertSystem sp history).head? = some m ∧
      m.role = Role.system ∧ m.content = sp := by
  cases history with
  | nil => exact ⟨Msg.mk Role.system sp [], rfl, rfl, rfl⟩
  | cons m0 rest =>
      by_cases hr : m0.role = Role.system
      · exact ⟨{ m0 with content := sp }, by simp [upsertSystem, hr], hr, rfl⟩
      · exact ⟨Msg.mk Role.system sp [], by simp [upsertSystem, hr], rfl, rfl⟩

theorem think_history_head (env : BrainEnv) (backend : List Msg → AsstMsg)
    (max_history : Nat) (sp um : String) (st : BrainState) (history : List Msg) :
    ∃ m, ((think env backend max_history sp um st history).history).head? = some m ∧
      m.role = Role.system ∧ m.content = sp := by
  obtain ⟨m, hm1, hrole, hcontent⟩ := upsertSystem_head sp history
  refine ⟨m, ?_, hrole, hcontent⟩
  have hne1 : upsertSystem sp history ≠ [] := by
    intro hnil
    rw [hnil] at hm1
    simp at hm1
  have hh2 : (upsertSystem sp history ++ [Msg.mk Role.user um []]).head? = some m := by
    cases hx : upsertSystem sp history with
    | nil => exact absurd hx hne1
    | cons a as =>
        rw [hx] at hm1
        simpa using hm1
  have hh3 : (trim_history max_history
      (upsertSystem sp history ++ [Msg.mk Role.user um []])).head? = some m := by
    rw [head?_eq_of_take_one (trim_history_take_one max_history _)]
    exact hh2
  have hne3 : trim_history max_history
      (upsertSystem sp history ++ [Msg.mk Role.user um []]) ≠ [] := by
    intro hnil
    rw [hnil] at hh3
    simp at hh3
  show ((thinkLoop env backend 10 st
      (trim_history max_history
        (upsertSystem sp history ++ [Msg.mk Role.user um []])) []).history).head? = some m
  rw [thinkLoop_head env backend 10 st _ [] hne3]
  exact hh3

/-- C4 (amended): after every call to `Brain.think`, history element 0
exists, has role system and holds the most recent system prompt; and —
provided the configured maximum length is at least 2 — the trimming
step preserves element 0, drops only from the front of the remainder,
and trims the history to `min (current length) (maximum)`. (With a
configured maximum of 1 the slice `history[-(max-1):]` is the whole
list and trimming grows the history instead; see the counterexample.) -/
theorem think_history_invariant_spec (env : BrainEnv) (backend : List Msg → AsstMsg)
    (max_history : Nat) (sp um : String) (st : BrainState) (history : List Msg)
    (hmax : 2 ≤ max_history) :
    (∃ m, ((think env backend max_history sp um st history).history).head? = some m ∧
      m.role = Role.system ∧ m.content = sp) ∧
    (∀ hist : List Msg,
      (trim_history max_history hist).take 1 = hist.take 1 ∧
      (trim_history max_history hist).length = min hist.length max_history ∧
      ∃ k, trim_history max_history hist = hist.take 1 ++ (hist.drop 1).drop k) :=
  ⟨think_history_head env backend max_history sp um st history,
   fun hist => trim_history_shape max_history hmax hist⟩

/-- Counterexample to C4 as stated: with configured maximum length 1,
`_trim_history` does not trim to the maximum — on a two-message history
it produces a three-message history (`history[:1] + history[-0:]` is
`history[:1] + history`). -/
theorem trim_history_max_one_counterexample :
    (trim_history 1 [Msg.mk Role.system "s" [], Msg.mk Role.user "u" []]).length = 3 ∧
      ¬((trim_history 1 [Msg.mk Role.system "s" [], Msg.mk Role.user "u" []]).length ≤ 1) := by
  constructor <;> decide

/-- Witness for `think_history_invariant_spec` at concrete inputs. -/
theorem think_history_invariant_spec_witness :
    (trim_history 2 [Msg.mk Role.system "s" [], Msg.mk Role.user "a" [],
        Msg.mk Role.user "b" []]).length =
      min ([Msg.mk Role.system "s" [], Msg.mk Role.user "a" [],
        Msg.mk Role.user "b" []] : List Msg).length 2 :=
  ((think_history_invariant_spec
      (BrainEnv.mk ["tmp", "proj"] CORE_FILES (fun _ => Except.ok []))
      (fun _ => AsstMsg.mk "" []) 2 "s" "u"
      (BrainState.mk tapeInit (CodebaseFS.mk [])) [] (by decide)).2
    [Msg.mk Role.system "s" [], Msg.mk Role.user "a" [], Msg.mk Role.user "b" []]).2.1
